import Mathlib

/-!
Verification of the markdown blog editor's text-caching and round-trip
editing pipeline (`blog_editor.py`, `file_manager.py`).

The Python source is shallowly embedded: text is `String` / `List Char`,
the cache directory is a list of entries carrying a logical
modification time, fallible operations return `Option` / `Except`, and
filesystem-clock behaviour (a fresh write always has the newest
modification time) is expressed by a strictly increasing logical clock.
-/

namespace BlogEditor

/-! ### TextCache (`blog_editor.py`, class `TextCache`) -/

/-- `TextCache.chunk_size = 50000` (characters per chunk). -/
def chunkSize : Nat := 50000

/-- `TextCache.cache_size = 10` (maximum number of resident cache files). -/
def cacheSize : Nat := 10

/-- Structural-recursion worker for `chunksOf`; `fuel` bounds the number of
chunks produced and is always supplied as the length of the list, which
suffices whenever the chunk size is positive. -/
def chunksOfFuel (cs : Nat) : Nat → List Char → List (List Char)
  | 0, _ => []
  | _, [] => []
  | fuel + 1, c :: rest => ((c :: rest).take cs) :: chunksOfFuel cs fuel ((c :: rest).drop cs)

/-- The chunking comprehension in `TextCache.save_to_cache`:
`[text[i:i + self.chunk_size] for i in range(0, len(text), self.chunk_size)]`. -/
def chunksOf (cs : Nat) (l : List Char) : List (List Char) :=
  chunksOfFuel cs l.length l

/-- One cache file: its name (the content hash key), the stored chunk list,
and its modification time (`os.path.getmtime`), modelled as a logical clock value. -/
structure CacheEntry where
  key : String
  chunks : List (List Char)
  mtime : Nat
deriving DecidableEq

/-- The state of the cache directory.  `keyFn` models
`TextCache.get_cache_key` (the MD5 hex digest of the text), kept abstract:
no claim depends on the digest's value.  `clock` is the logical filesystem
clock; each write stamps the written file with the current clock value. -/
structure CacheState where
  keyFn : String → String
  entries : List CacheEntry
  clock : Nat

/-- Writing the cache file at path `e.key`: overwrite the existing file of
that name if present (its directory-listing position is unchanged),
otherwise create a new one. -/
def writeEntry (l : List CacheEntry) (e : CacheEntry) : List CacheEntry :=
  if l.any (fun x => x.key = e.key) then
    l.map (fun x => if x.key = e.key then e else x)
  else
    l ++ [e]

/-- `TextCache._cleanup_old_cache`: sort the directory's files by
modification time, newest first (`files.sort(key=..., reverse=True)` is a
stable sort), keep the first `cache_size`, delete the rest. -/
def cleanupOldCache (l : List CacheEntry) : List CacheEntry :=
  (l.insertionSort (fun a b => b.mtime ≤ a.mtime)).take cacheSize

/-- `TextCache.save_to_cache`: compute the key, write the chunked text to
the file named by the key, run the cleanup, and return the key.
(The `except` branch returning `None` is driven by filesystem failure,
which the callers model with a success oracle; see `setPlainText`.) -/
def saveToCache (st : CacheState) (text : String) : Option String × CacheState :=
  let key := st.keyFn text
  let e : CacheEntry := ⟨key, chunksOf chunkSize text.data, st.clock⟩
  let pre := writeEntry st.entries e
  (some key, { st with entries := cleanupOldCache pre, clock := st.clock + 1 })

/-- `TextCache.load_from_cache`: if a file named `cache_key` exists, read
it and return `''.join(data['chunks'])`; otherwise return `None`. -/
def loadFromCache (st : CacheState) (key : String) : Option String :=
  (st.entries.find? (fun e => e.key = key)).map (fun e => String.mk e.chunks.flatten)

/-- A cache directory as created fresh by `TextCache.__init__` (no files
yet); the hash is instantiated with the identity for concrete runs, an
injective stand-in for the MD5 digest. -/
def initialCache : CacheState := ⟨id, [], 0⟩

/-- Concatenating the chunks in order reconstructs the text (lossless chunking). -/
theorem flatten_chunksOfFuel (cs : Nat) (hcs : 0 < cs) :
    ∀ fuel l, l.length ≤ fuel → (chunksOfFuel cs fuel l).flatten = l := by
  intro fuel
  induction fuel with
  | zero =>
    intro l hl
    have : l = [] := List.eq_nil_of_length_eq_zero (Nat.le_zero.mp hl)
    subst this; rfl
  | succ f ih =>
    intro l hl
    cases l with
    | nil => rfl
    | cons c rest =>
      have hdrop : ((c :: rest).drop cs).length ≤ f := by
        rw [List.length_drop]
        have h1 : (c :: rest).length - cs ≤ (c :: rest).length - 1 :=
          Nat.sub_le_sub_left hcs _
        have h2 : (c :: rest).length - 1 ≤ f := by
          simp only [List.length_cons] at hl ⊢
          omega
        exact Nat.le_trans h1 h2
      calc ((chunksOfFuel cs (f + 1) (c :: rest)).flatten)
          = (c :: rest).take cs ++ (chunksOfFuel cs f ((c :: rest).drop cs)).flatten := rfl
        _ = (c :: rest).take cs ++ (c :: rest).drop cs := by rw [ih _ hdrop]
        _ = c :: rest := List.take_append_drop cs (c :: rest)

theorem flatten_chunksOf (cs : Nat) (hcs : 0 < cs) (l : List Char) :
    (chunksOf cs l).flatten = l :=
  flatten_chunksOfFuel cs hcs l.length l (Nat.le_refl _)

end BlogEditor

namespace BlogEditor

/-! ### Ordering used by the cache cleanup -/

/-- `files.sort(key=lambda x: x[1], reverse=True)`: newest modification
time first. -/
theorem byMtimeDesc_total (a b : CacheEntry) :
    b.mtime ≤ a.mtime ∨ a.mtime ≤ b.mtime :=
  (Nat.le_total b.mtime a.mtime)

/-- If `e` is a member of `l` whose modification time strictly dominates
every other member, the stable descending sort puts `e` first. -/
theorem insertionSort_cons_of_strict_max (l : List CacheEntry) (e : CacheEntry)
    (he : e ∈ l) (hmax : ∀ x ∈ l, x = e ∨ x.mtime < e.mtime) :
    ∃ rest, l.insertionSort (fun a b => b.mtime ≤ a.mtime) = e :: rest := by
  haveI : IsTotal CacheEntry (fun a b => b.mtime ≤ a.mtime) :=
    ⟨fun a b => Nat.le_total b.mtime a.mtime⟩
  haveI : IsTrans CacheEntry (fun a b => b.mtime ≤ a.mtime) :=
    ⟨fun _ _ _ h1 h2 => Nat.le_trans h2 h1⟩
  have hs := List.sorted_insertionSort (fun a b : CacheEntry => b.mtime ≤ a.mtime) l
  have hp := List.perm_insertionSort (fun a b : CacheEntry => b.mtime ≤ a.mtime) l
  have he' : e ∈ l.insertionSort (fun a b => b.mtime ≤ a.mtime) :=
    (List.mem_insertionSort _).mpr he
  cases hsort : l.insertionSort (fun a b => b.mtime ≤ a.mtime) with
  | nil => rw [hsort] at he'; cases he'
  | cons h t =>
    refine ⟨t, ?_⟩
    rw [hsort] at hs he' hp
    rcases List.mem_cons.mp he' with rfl | he2
    · rfl
    · have hh : h ∈ l := hp.subset (List.mem_cons_self h t)
      rcases hmax h hh with rfl | hlt
      · rfl
      · have hle : e.mtime ≤ h.mtime := List.rel_of_sorted_cons hs e he2
        omega

/-- The entry written by `save_to_cache` is present in the directory
listing, and every other file there is strictly older. -/
theorem writeEntry_mem_and_max (l : List CacheEntry) (e : CacheEntry)
    (hold : ∀ x ∈ l, x.mtime < e.mtime) :
    e ∈ writeEntry l e ∧ ∀ x ∈ writeEntry l e, x = e ∨ x.mtime < e.mtime := by
  unfold writeEntry
  by_cases hany : l.any (fun x => x.key = e.key)
  · simp only [hany, if_pos]
    constructor
    · rcases List.any_eq_true.mp hany with ⟨x, hx, hkey⟩
      refine List.mem_map.mpr ⟨x, hx, ?_⟩
      simp only [if_pos (of_decide_eq_true hkey)]
    · intro x hx
      rcases List.mem_map.mp hx with ⟨y, hy, hyx⟩
      by_cases hk : y.key = e.key
      · left; rw [← hyx]; simp only [if_pos hk]
      · right; rw [← hyx]; simp only [if_neg hk]; exact hold y hy
  · simp only [hany, if_neg, Bool.false_eq_true, not_false_iff]
    constructor
    · exact List.mem_append_right l (List.mem_singleton_self e)
    · intro x hx
      rcases List.mem_append.mp hx with hx | hx
      · right; exact hold x hx
      · left; exact List.mem_singleton.mp hx

/-- C1: for every text T (including the empty string and texts longer than
the 50,000-character chunk size), saving T to the cache and then loading
from the cache under the returned key reconstructs exactly T, with the
chunks concatenated in stored order.  The hypothesis says the filesystem
clock is fresh: every resident file is older than the current clock value,
which holds for every reachable cache state. -/
theorem c1_save_load_roundtrip (st : CacheState) (t : String)
    (hclock : ∀ x ∈ st.entries, x.mtime < st.clock) :
    (saveToCache st t).1 = some (st.keyFn t) ∧
      loadFromCache (saveToCache st t).2 (st.keyFn t) = some t := by
  refine ⟨rfl, ?_⟩
  set e : CacheEntry := ⟨st.keyFn t, chunksOf chunkSize t.data, st.clock⟩ with he_def
  have hmem : e ∈ writeEntry st.entries e ∧
      ∀ x ∈ writeEntry st.entries e, x = e ∨ x.mtime < e.mtime :=
    writeEntry_mem_and_max st.entries e hclock
  rcases insertionSort_cons_of_strict_max (writeEntry st.entries e) e hmem.1 hmem.2
    with ⟨rest, hsort⟩
  have hclean : cleanupOldCache (writeEntry st.entries e) = e :: rest.take 9 := by
    unfold cleanupOldCache
    rw [hsort]
    rfl
  show ((cleanupOldCache (writeEntry st.entries e)).find?
      (fun x => x.key = st.keyFn t)).map (fun x => String.mk x.chunks.flatten) = some t
  rw [hclean, List.find?_cons_of_pos _ (by simp [he_def])]
  show some (String.mk e.chunks.flatten) = some t
  have hflat : (chunksOf chunkSize t.data).flatten = t.data :=
    flatten_chunksOf chunkSize (by decide) t.data
  simp only [he_def, hflat]

/-- Witness for C1 at a concrete input: a fresh cache and the text "hello". -/
theorem c1_save_load_roundtrip_witness :
    (saveToCache initialCache "hello").1 = some "hello" ∧
      loadFromCache (saveToCache initialCache "hello").2 "hello" = some "hello" :=
  c1_save_load_roundtrip initialCache "hello" (by intro x hx; cases hx)

end BlogEditor

namespace BlogEditor

/-- Distinct texts used to exercise the eviction bound: `textsOf 15` are
fifteen pairwise distinct strings. -/
def textsOf (n : Nat) : List String :=
  (List.range n).map (fun i => String.mk (List.replicate i 'a'))

/-- Repeated `save_to_cache` calls, keeping only the evolving cache state. -/
def insertAll (st : CacheState) (ts : List String) : CacheState :=
  ts.foldl (fun s u => (saveToCache s u).2) st

/-- C4: after any cache insertion the directory holds at most
`cache_size = 10` entries, exactly `min 10 n` of the `n` files present
before cleanup survive, and every deleted file is at least as old as every
kept one (the kept files are the newest ten by modification time);
in particular inserting 15 distinct texts into a fresh cache leaves
exactly 10 entries. -/
theorem c4_eviction_policy (st : CacheState) (t : String) :
    ((saveToCache st t).2.entries.length ≤ cacheSize) ∧
    ((saveToCache st t).2.entries.length =
      min cacheSize
        (writeEntry st.entries ⟨st.keyFn t, chunksOf chunkSize t.data, st.clock⟩).length) ∧
    (∀ e ∈ (saveToCache st t).2.entries,
      ∀ x ∈ writeEntry st.entries ⟨st.keyFn t, chunksOf chunkSize t.data, st.clock⟩,
        x ∉ (saveToCache st t).2.entries → x.mtime ≤ e.mtime) ∧
    (insertAll initialCache (textsOf 15)).entries.length = cacheSize := by
  haveI : IsTotal CacheEntry (fun a b => b.mtime ≤ a.mtime) :=
    ⟨fun a b => Nat.le_total b.mtime a.mtime⟩
  haveI : IsTrans CacheEntry (fun a b => b.mtime ≤ a.mtime) :=
    ⟨fun _ _ _ h1 h2 => Nat.le_trans h2 h1⟩
  set pre := writeEntry st.entries ⟨st.keyFn t, chunksOf chunkSize t.data, st.clock⟩ with hpre
  have hentries : (saveToCache st t).2.entries = cleanupOldCache pre := rfl
  have hs := List.sorted_insertionSort (fun a b : CacheEntry => b.mtime ≤ a.mtime) pre
  have hp := List.perm_insertionSort (fun a b : CacheEntry => b.mtime ≤ a.mtime) pre
  have hlen : (cleanupOldCache pre).length = min cacheSize pre.length := by
    unfold cleanupOldCache
    rw [List.length_take, List.length_insertionSort]
  refine ⟨?_, ?_, ?_, ?_⟩
  · rw [hentries, hlen]; exact Nat.min_le_left _ _
  · rw [hentries, hlen]
  · intro e he x hx hnx
    rw [hentries] at he hnx
    have hxs : x ∈ pre.insertionSort (fun a b => b.mtime ≤ a.mtime) :=
      (List.mem_insertionSort _).mpr hx
    rw [← List.take_append_drop cacheSize
      (pre.insertionSort (fun a b => b.mtime ≤ a.mtime))] at hxs
    rcases List.mem_append.mp hxs with hxs | hxs
    · exact absurd hxs hnx
    · exact List.Sorted.rel_of_mem_take_of_mem_drop hs he hxs
  · decide

/-! ### MarkdownEditor text accessors (`blog_editor.py`, class `MarkdownEditor`) -/

/-- The editor-visible state: the underlying `QTextEdit` document text
(`super().setPlainText` / `super().toPlainText`), the recorded cache key,
and the shared `TextCache`. -/
structure EditorState where
  buffer : String
  currentCacheKey : Option String
  textCache : CacheState

/-- `MarkdownEditor.setPlainText`: save the text to the cache and record
the returned key, then store the text in the underlying document.  `ok`
is the success oracle for the cache file write: `save_to_cache` returns
`None` and leaves the store unchanged exactly when the write raised. -/
def setPlainText (ed : EditorState) (text : String) (ok : Bool) : EditorState :=
  if ok then
    { buffer := text,
      currentCacheKey := (saveToCache ed.textCache text).1,
      textCache := (saveToCache ed.textCache text).2 }
  else
    { buffer := text, currentCacheKey := none, textCache := ed.textCache }

/-- `MarkdownEditor.toPlainText`: serve the cached text when a key is
recorded and its cache file still loads, else the in-memory document. -/
def toPlainText (ed : EditorState) : String :=
  match ed.currentCacheKey with
  | none => ed.buffer
  | some k => (loadFromCache ed.textCache k).getD ed.buffer

/-- A freshly constructed editor: empty document, no cache key, fresh cache. -/
def initialEditor : EditorState := ⟨"", none, initialCache⟩

/-- Reading through a recorded key whose cache file loads serves the cached value. -/
theorem toPlainText_of_load (ed : EditorState) (k c : String)
    (h1 : ed.currentCacheKey = some k) (h2 : loadFromCache ed.textCache k = some c) :
    toPlainText ed = c := by
  unfold toPlainText
  rw [h1]
  show (loadFromCache ed.textCache k).getD ed.buffer = c
  rw [h2]
  rfl

/-- Reading through a recorded key whose cache file is gone falls back to the buffer. -/
theorem toPlainText_of_miss (ed : EditorState) (k : String)
    (h1 : ed.currentCacheKey = some k) (h2 : loadFromCache ed.textCache k = none) :
    toPlainText ed = ed.buffer := by
  unfold toPlainText
  rw [h1]
  show (loadFromCache ed.textCache k).getD ed.buffer = ed.buffer
  rw [h2]
  rfl

/-- C5: a `setPlainText` of T followed immediately by `toPlainText` on the
same editor returns exactly T — when the cache write succeeded the cached
value is served under the content-addressed key, when it failed the key is
null and the in-memory buffer is served, and when the cache entry has been
deleted by the time of the read (second conjunct: the cache directory
emptied after the write) the in-memory buffer is served. -/
theorem c5_read_after_write (ed : EditorState) (t : String) (ok : Bool)
    (hclock : ∀ x ∈ ed.textCache.entries, x.mtime < ed.textCache.clock) :
    toPlainText (setPlainText ed t ok) = t ∧
      toPlainText { setPlainText ed t ok with
        textCache := ⟨(setPlainText ed t ok).textCache.keyFn, [],
          (setPlainText ed t ok).textCache.clock⟩ } = t := by
  constructor
  · cases ok with
    | false => rfl
    | true =>
      have hload := (c1_save_load_roundtrip ed.textCache t hclock).2
      exact toPlainText_of_load _ (ed.textCache.keyFn t) t rfl hload
  · cases ok with
    | false => rfl
    | true =>
      exact toPlainText_of_miss _ (ed.textCache.keyFn t) rfl rfl

/-- Witness for C5: a fresh editor, the text "draft", a successful cache write. -/
theorem c5_read_after_write_witness :
    toPlainText (setPlainText initialEditor "draft" true) = "draft" ∧
      toPlainText { setPlainText initialEditor "draft" true with
        textCache := ⟨(setPlainText initialEditor "draft" true).textCache.keyFn, [],
          (setPlainText initialEditor "draft" true).textCache.clock⟩ } = "draft" :=
  c5_read_after_write initialEditor "draft" true (by intro x hx; cases hx)

end BlogEditor

namespace BlogEditor

/-! ### FrontmatterCodec (`file_manager.py`: `FileManager.save_blog`,
`FileManager.import_markdown`) -/

/-- The whitespace set stripped by Python's `str.strip()` (restricted to
the ASCII whitespace characters; the claims only involve these). -/
def pyIsSpace (c : Char) : Bool :=
  c = ' ' || c = '\t' || c = '\n' || c = '\r' || c = '\x0b' || c = '\x0c'

/-- Strip leading whitespace. -/
def ltrim (l : List Char) : List Char := l.dropWhile pyIsSpace

/-- Strip trailing whitespace. -/
def rtrim (l : List Char) : List Char := (l.reverse.dropWhile pyIsSpace).reverse

/-- Python `str.strip()`. -/
def pyStrip (l : List Char) : List Char := rtrim (ltrim l)

/-- First index at which `pat` occurs as a contiguous block in the list
(Python `str.find`). -/
def findSubstr (pat : List Char) : List Char → Option Nat
  | [] => if pat.isEmpty then some 0 else none
  | c :: rest =>
    if pat.isPrefixOf (c :: rest) then some 0
    else (findSubstr pat rest).map (fun i => i + 1)

/-- Python `s.split(sep, maxsplit)` for a non-empty separator: cut at the
first occurrence of `sep`, at most `maxsplit` times. -/
def pySplitSep (sep : List Char) : Nat → List Char → List (List Char)
  | 0, s => [s]
  | m + 1, s =>
    match findSubstr sep s with
    | none => [s]
    | some i => s.take i :: pySplitSep sep m (s.drop (i + sep.length))

/-- The frontmatter delimiter `'---'`. -/
def delim : List Char := ['-', '-', '-']

/-- `FileManager.import_markdown`, parameterised over the YAML parser:
`yamlLoad s = Except.error ()` models `yaml.safe_load(s)` raising,
`Except.ok md` a successful parse (`md = none` is YAML null, which the
code passes through as absent metadata).  The result is `none` when the
function raises `FileOperationError`: with a leading delimiter but fewer
than two delimiter occurrences, the three-way unpacking of
`content.split('---', 2)` raises `ValueError`, which the outer handler
rethrows. -/
def importMarkdown {μ : Type} (yamlLoad : String → Except Unit (Option μ))
    (content : String) : Option (String × Option μ) :=
  if delim.isPrefixOf content.data then
    match pySplitSep delim 2 content.data with
    | [_, fm, rest] =>
      match yamlLoad (String.mk fm) with
      | Except.ok md => some (String.mk (pyStrip rest), md)
      | Except.error _ => some (String.mk (pyStrip (fm ++ delim ++ rest)), none)
    | _ => none
  else
    some (String.mk (pyStrip content.data), none)

/-- The frontmatter writer in `FileManager.save_blog` (lines 60-64):
`"---\n" + frontmatter + "---\n\n" + content` with
`frontmatter = yaml.dump(metadata)`, parameterised over the serializer. -/
def joinFrontmatter {μ : Type} (yamlDump : μ → String) (m : μ) (body : String) : String :=
  "---\n" ++ yamlDump m ++ "---\n\n" ++ body

/-- A concrete metadata family for closed-term runs: a single `title`
mapping with a plain scalar value.  `tinyDump` and `tinyLoad` mirror
`yaml.dump` and `yaml.safe_load` on this family: `yaml.dump({'title': t})`
is `"title: t\n"`, `safe_load` inverts it (ignoring surrounding
whitespace), returns null on a blank document, and raises on the
malformed document `"["`. -/
def tinyDump (t : String) : String := "title: " ++ t ++ "\n"

def tinyLoad (s : String) : Except Unit (Option String) :=
  let t := pyStrip s.data
  if t.isEmpty then Except.ok none
  else if ("title: ".data).isPrefixOf t then
    Except.ok (some (String.mk (t.drop 7)))
  else Except.error ()

/-! #### Strip lemmas -/

/-- The head surviving a `dropWhile` fails the predicate. -/
theorem dropWhile_head_not (p : Char → Bool) :
    ∀ (l : List Char) a t, l.dropWhile p = a :: t → p a = false := by
  intro l
  induction l with
  | nil => intro a t h; cases h
  | cons c rest ih =>
    intro a t h
    rw [List.dropWhile_cons] at h
    by_cases hc : p c
    · rw [if_pos hc] at h; exact ih a t h
    · rw [if_neg hc] at h
      cases h
      exact Bool.of_not_eq_true hc

theorem ltrim_idem (l : List Char) : ltrim (ltrim l) = ltrim l := by
  unfold ltrim
  cases h : l.dropWhile pyIsSpace with
  | nil => rfl
  | cons a t =>
    rw [List.dropWhile_cons, if_neg]
    rw [dropWhile_head_not pyIsSpace l a t h]
    exact Bool.false_ne_true

theorem rtrim_idem (l : List Char) : rtrim (rtrim l) = rtrim l := by
  unfold rtrim
  rw [List.reverse_reverse]
  show (ltrim (ltrim l.reverse)).reverse = (ltrim l.reverse).reverse
  rw [ltrim_idem]

/-- `rtrim` is a prefix of its argument. -/
theorem rtrim_isPrefix (l : List Char) : rtrim l <+: l := by
  unfold rtrim
  have h : l.reverse.dropWhile pyIsSpace <:+ l.reverse := List.dropWhile_suffix pyIsSpace
  rcases h with ⟨s, hs⟩
  exact ⟨s.reverse, by rw [← List.reverse_append, hs, List.reverse_reverse]⟩

theorem ltrim_rtrim_ltrim (l : List Char) :
    ltrim (rtrim (ltrim l)) = rtrim (ltrim l) := by
  cases h : rtrim (ltrim l) with
  | nil => rfl
  | cons a t =>
    have hpfx : rtrim (ltrim l) <+: ltrim l := rtrim_isPrefix (ltrim l)
    rw [h] at hpfx
    cases hl : ltrim l with
    | nil =>
      rw [hl] at hpfx
      rcases hpfx with ⟨s, hs⟩
      cases hs
    | cons b t2 =>
      rw [hl] at hpfx
      have hab : a = b := (List.cons_prefix_cons.mp hpfx).1
      have hb : pyIsSpace b = false := dropWhile_head_not pyIsSpace l b t2 hl
      show (a :: t).dropWhile pyIsSpace = a :: t
      rw [List.dropWhile_cons, if_neg]
      rw [hab, hb]
      exact Bool.false_ne_true

/-- Python `strip()` is idempotent. -/
theorem pyStrip_idem (l : List Char) : pyStrip (pyStrip l) = pyStrip l := by
  unfold pyStrip
  rw [ltrim_rtrim_ltrim, rtrim_idem]

end BlogEditor



namespace BlogEditor

/-! #### Locating the delimiter occurrences -/

theorem findSubstr_cons_pos (pat : List Char) (c : Char) (r : List Char)
    (h : pat.isPrefixOf (c :: r) = true) : findSubstr pat (c :: r) = some 0 := by
  unfold findSubstr
  rw [if_pos h]

/-- If `pat` occurs right after `u` and nowhere earlier, the first
occurrence in `u ++ v` is at index `u.length`. -/
theorem findSubstr_append (pat : List Char) :
    ∀ (u v : List Char), pat.isPrefixOf v = true →
      (∀ k, k < u.length → ¬ pat.isPrefixOf ((u ++ v).drop k) = true) →
      findSubstr pat (u ++ v) = some u.length := by
  intro u
  induction u with
  | nil =>
    intro v hpre _
    cases v with
    | nil =>
      have hnil : pat = [] := List.prefix_nil.mp (List.isPrefixOf_iff_prefix.mp hpre)
      subst hnil
      rfl
    | cons c rest =>
      exact findSubstr_cons_pos pat c rest hpre
  | cons c u' ih =>
    intro v hpre hnone
    have h0 : ¬ pat.isPrefixOf ((c :: u' ++ v).drop 0) = true :=
      hnone 0 (Nat.succ_pos _)
    have hrec : findSubstr pat (u' ++ v) = some u'.length := by
      refine ih v hpre ?_
      intro k hk
      have := hnone (k + 1) (Nat.succ_lt_succ hk)
      simpa using this
    show findSubstr pat (c :: (u' ++ v)) = some (u'.length + 1)
    unfold findSubstr
    rw [if_neg (by simpa using h0), hrec]
    rfl

/-- An occurrence of the delimiter strictly before position `u.length` in
`u ++ '---' ++ w` would make `'---'` an infix of `u ++ '--'`. -/
theorem delim_infix_of_early_occurrence (u w : List Char) (k : Nat)
    (hk : k < u.length)
    (h : delim.isPrefixOf ((u ++ (delim ++ w)).drop k) = true) :
    delim <:+: (u ++ ['-', '-']) := by
  have hp : delim <+: (u ++ (delim ++ w)).drop k := List.isPrefixOf_iff_prefix.mp h
  have htake : (u ++ (delim ++ w)).take (u.length + 2) = u ++ ['-', '-'] := by
    rw [List.take_append]
    rfl
  have hlen : delim.length ≤ u.length + 2 - k := by
    show 3 ≤ u.length + 2 - k
    omega
  have hpfx2 : delim <+: ((u ++ (delim ++ w)).take (u.length + 2)).drop k := by
    rw [List.drop_take]
    rcases hp with ⟨t, ht⟩
    refine ⟨t.take (u.length + 2 - k - delim.length), ?_⟩
    rw [← ht, List.take_append_eq_append_take, List.take_of_length_le hlen]
  rw [htake] at hpfx2
  rcases hpfx2 with ⟨t, ht⟩
  refine ⟨(u ++ ['-', '-']).take k, t, ?_⟩
  rw [List.append_assoc, ht, List.take_append_drop]

/-- Unfolding one step of the splitter at a found separator. -/
theorem pySplitSep_cons (sep : List Char) (m : Nat) (s : List Char) (i : Nat)
    (h : findSubstr sep s = some i) :
    pySplitSep sep (m + 1) s = s.take i :: pySplitSep sep m (s.drop (i + sep.length)) := by
  show (match findSubstr sep s with
    | none => [s]
    | some i => s.take i :: pySplitSep sep m (s.drop (i + sep.length))) =
    s.take i :: pySplitSep sep m (s.drop (i + sep.length))
  rw [h]

/-- `content.split('---', 2)` on a document of the form
`'---' + u + '---' + v`, when no earlier `'---'` occurs inside `u` (or
spanning its right edge), yields exactly `['', u, v]`. -/
theorem pySplitSep_delim (u v : List Char)
    (hu : ¬ delim <:+: (u ++ ['-', '-'])) :
    pySplitSep delim 2 (delim ++ (u ++ (delim ++ v))) = [[], u, v] := by
  have hfind1 : findSubstr delim (delim ++ (u ++ (delim ++ v))) = some 0 :=
    findSubstr_cons_pos delim '-' _
      (List.isPrefixOf_iff_prefix.mpr (List.prefix_append delim _))
  have hfind2 : findSubstr delim (u ++ (delim ++ v)) = some u.length := by
    refine findSubstr_append delim u (delim ++ v)
      (List.isPrefixOf_iff_prefix.mpr (List.prefix_append delim v)) ?_
    intro k hk habs
    exact hu (delim_infix_of_early_occurrence u v k hk habs)
  have hdrop3 : (delim ++ (u ++ (delim ++ v))).drop (0 + delim.length) = u ++ (delim ++ v) := by
    rw [Nat.zero_add, show delim.length = delim.length + 0 from rfl, List.drop_append]
    rfl
  have hdropu : (u ++ (delim ++ v)).drop (u.length + delim.length) = v := by
    rw [List.drop_append]
    rfl
  show pySplitSep delim (1 + 1) (delim ++ (u ++ (delim ++ v))) = [[], u, v]
  rw [pySplitSep_cons delim 1 _ 0 hfind1, hdrop3]
  rw [pySplitSep_cons delim 0 _ u.length hfind2, List.take_left, hdropu]
  rfl

end BlogEditor

namespace BlogEditor

/-! #### C2: frontmatter join/split round trip -/

/-- A list equal to its own strip has no leading whitespace. -/
theorem ltrim_eq_of_pyStrip_eq (l : List Char) (h : pyStrip l = l) : ltrim l = l := by
  have h1 : ltrim l <:+ l := List.dropWhile_suffix pyIsSpace
  have h2 : rtrim (ltrim l) <+: ltrim l := rtrim_isPrefix (ltrim l)
  have h3 : l.length ≤ (ltrim l).length := by
    have hle := h2.length_le
    rw [show rtrim (ltrim l) = pyStrip l from rfl, h] at hle
    exact hle
  exact h1.eq_of_length (Nat.le_antisymm h1.length_le h3)

/-- A list equal to its own strip has no trailing whitespace. -/
theorem rtrim_eq_of_pyStrip_eq (l : List Char) (h : pyStrip l = l) : rtrim l = l := by
  have hl : ltrim l = l := ltrim_eq_of_pyStrip_eq l h
  have hr : pyStrip l = rtrim l := by
    unfold pyStrip
    rw [hl]
  rw [← hr, h]

instance {ε α : Type} [DecidableEq ε] [DecidableEq α] : DecidableEq (Except ε α) :=
  fun a b =>
  match a, b with
  | Except.ok x, Except.ok y =>
    if h : x = y then isTrue (by rw [h]) else isFalse (by intro hc; cases hc; exact h rfl)
  | Except.error x, Except.error y =>
    if h : x = y then isTrue (by rw [h]) else isFalse (by intro hc; cases hc; exact h rfl)
  | Except.ok _, Except.error _ => isFalse (by intro hc; cases hc)
  | Except.error _, Except.ok _ => isFalse (by intro hc; cases hc)

/-- C2 counterexample: with the single-key metadata `{'title': 'x'}`
(whose values round-trip through YAML) and the body `"body\n"` (which does
not start with the delimiter), re-importing the serialized document yields
the stripped body `"body"`, not `"body\n"`: the split/join round trip of
the claim fails because `import_markdown` strips the body. -/
theorem c2_counterexample :
    tinyLoad (tinyDump "x") = Except.ok (some "x") ∧
    ¬ delim.isPrefixOf ("body\n" : String).data = true ∧
    importMarkdown tinyLoad (joinFrontmatter tinyDump "x" "body\n") =
      some ("body", some "x") ∧
    importMarkdown tinyLoad (joinFrontmatter tinyDump "x" "body\n") ≠
      some ("body\n", some "x") := by
  decide

/-- C2 (amended): serializing metadata M with body B and re-importing
recovers exactly (B, M), provided B carries no leading or trailing
whitespace (the importer strips the body) and the serialized frontmatter —
with the newline the writer places before it and the two dashes that
follow it — contains no occurrence of the delimiter `'---'`. -/
theorem c2_join_then_split (μ : Type) (yamlDump : μ → String)
    (yamlLoad : String → Except Unit (Option μ)) (m : μ) (b : String)
    (hload : yamlLoad (String.mk ('\n' :: (yamlDump m).data)) = Except.ok (some m))
    (hnodelim : ¬ delim <:+: (('\n' :: (yamlDump m).data) ++ ['-', '-']))
    (hb : pyStrip b.data = b.data)
    ( _hbd : ¬ delim.isPrefixOf b.data = true) :
    importMarkdown yamlLoad (joinFrontmatter yamlDump m b) = some (b, some m) := by
  have hdata : (joinFrontmatter yamlDump m b).data =
      delim ++ (('\n' :: (yamlDump m).data) ++ (delim ++ ('\n' :: '\n' :: b.data))) := by
    show ("---\n" ++ yamlDump m ++ "---\n\n" ++ b).data = _
    rw [String.data_append, String.data_append, String.data_append]
    rw [show ("---\n" : String).data = ['-', '-', '-', '\n'] from rfl]
    rw [show ("---\n\n" : String).data = ['-', '-', '-', '\n', '\n'] from rfl]
    simp [delim, List.append_assoc]
  have hstrip : pyStrip ('\n' :: '\n' :: b.data) = b.data := by
    unfold pyStrip ltrim
    rw [List.dropWhile_cons, if_pos (by decide), List.dropWhile_cons, if_pos (by decide)]
    rw [show b.data.dropWhile pyIsSpace = ltrim b.data from rfl]
    rw [ltrim_eq_of_pyStrip_eq b.data hb]
    exact rtrim_eq_of_pyStrip_eq b.data hb
  unfold importMarkdown
  rw [hdata]
  rw [if_pos (List.isPrefixOf_iff_prefix.mpr (List.prefix_append delim _))]
  rw [pySplitSep_delim _ _ hnodelim]
  show (match yamlLoad (String.mk ('\n' :: (yamlDump m).data)) with
    | Except.ok md => some (String.mk (pyStrip ('\n' :: '\n' :: b.data)), md)
    | Except.error _ =>
        some (String.mk (pyStrip (('\n' :: (yamlDump m).data) ++ delim ++
          ('\n' :: '\n' :: b.data))), none)) = some (b, some m)
  rw [hload]
  show some (String.mk (pyStrip ('\n' :: '\n' :: b.data)), some m) = some (b, some m)
  rw [hstrip]

/-- Witness for C2 (amended) at the concrete codec `{'title': 'x'}` with
body "body". -/
theorem c2_join_then_split_witness :
    (tinyLoad (String.mk ('\n' :: (tinyDump "x").data)) = Except.ok (some "x")) ∧
    (¬ delim <:+: (('\n' :: (tinyDump "x").data) ++ ['-', '-'])) ∧
    (pyStrip ("body" : String).data = ("body" : String).data) ∧
    (¬ delim.isPrefixOf ("body" : String).data = true) ∧
    importMarkdown tinyLoad (joinFrontmatter tinyDump "x" "body") =
      some ("body", some "x") :=
  ⟨by decide, by decide, by decide, by decide,
    c2_join_then_split String tinyDump tinyLoad "x" "body" (by decide) (by decide)
      (by decide) (by decide)⟩

end BlogEditor

namespace BlogEditor

/-! #### C3: behaviour on a malformed frontmatter block -/

/-- C3 counterexample: the document `"---[\n---\nbody"` starts with the
delimiter and its block `"[\n"` fails to parse as YAML, yet the returned
body `"[\n---\nbody"` is not the original input: the leading `'---'`
(three characters) has been dropped, so the total content is not
preserved. -/
theorem c3_counterexample :
    delim.isPrefixOf ("---[\n---\nbody" : String).data = true ∧
    tinyLoad "[\n" = Except.error () ∧
    importMarkdown tinyLoad "---[\n---\nbody" = some ("[\n---\nbody", none) ∧
    ("[\n---\nbody" : String) ≠ "---[\n---\nbody" ∧
    ("[\n---\nbody" : String).length = 10 ∧
    ("---[\n---\nbody" : String).length = 13 := by
  decide

/-- C3 (amended): on an input `'---' + block + '---' + remainder` whose
block fails to parse as YAML (and contains no delimiter occurrence),
`import_markdown` returns absent metadata together with everything after
the opening delimiter — i.e. the original input minus its first three
characters — stripped of leading and trailing whitespace.  The failed
block and the second delimiter are preserved verbatim inside the body;
only the opening delimiter and surrounding whitespace are lost. -/
theorem c3_parse_failure_folds_block (μ : Type)
    (yamlLoad : String → Except Unit (Option μ)) (u v : List Char)
    (hnodelim : ¬ delim <:+: (u ++ ['-', '-']))
    (hfail : yamlLoad (String.mk u) = Except.error ()) :
    importMarkdown yamlLoad (String.mk (delim ++ (u ++ (delim ++ v)))) =
      some (String.mk (pyStrip
        ((delim ++ (u ++ (delim ++ v))).drop delim.length)), none) := by
  unfold importMarkdown
  rw [show (String.mk (delim ++ (u ++ (delim ++ v)))).data =
    delim ++ (u ++ (delim ++ v)) from rfl]
  rw [if_pos (List.isPrefixOf_iff_prefix.mpr (List.prefix_append delim _))]
  rw [pySplitSep_delim u v hnodelim]
  show (match yamlLoad (String.mk u) with
    | Except.ok md => some (String.mk (pyStrip v), md)
    | Except.error _ => some (String.mk (pyStrip (u ++ delim ++ v)), none)) = _
  rw [hfail]
  show some (String.mk (pyStrip (u ++ delim ++ v)), none) =
    some (String.mk (pyStrip ((delim ++ (u ++ (delim ++ v))).drop delim.length)), none)
  rw [List.append_assoc]
  rfl

/-- Witness for C3 (amended) at the concrete malformed document
`"---[\n---\nbody"`. -/
theorem c3_parse_failure_folds_block_witness :
    (¬ delim <:+: (("[\n" : String).data ++ ['-', '-'])) ∧
    tinyLoad (String.mk ("[\n" : String).data) = Except.error () ∧
    importMarkdown tinyLoad
      (String.mk (delim ++ (("[\n" : String).data ++ (delim ++ ("\nbody" : String).data)))) =
      some (String.mk (pyStrip
        ((delim ++ (("[\n" : String).data ++ (delim ++ ("\nbody" : String).data))).drop
          delim.length)), none) :=
  ⟨by decide, by decide,
    c3_parse_failure_folds_block String tinyLoad ("[\n" : String).data
      ("\nbody" : String).data (by decide) (by decide)⟩

/-! #### C9: every returned body is stripped -/

/-- C9: whatever the input document, whenever `import_markdown` returns a
body (successful frontmatter parse, frontmatter parse failure, or no
frontmatter at all), that body carries no leading or trailing whitespace:
it is a fixed point of `strip()`. -/
theorem c9_import_body_stripped (μ : Type)
    (yamlLoad : String → Except Unit (Option μ)) (content body : String) (md : Option μ)
    (h : importMarkdown yamlLoad content = some (body, md)) :
    String.mk (pyStrip body.data) = body := by
  unfold importMarkdown at h
  split at h
  · split at h
    · split at h
      · simp only [Option.some.injEq, Prod.mk.injEq] at h
        rw [← h.1]
        show String.mk (pyStrip (pyStrip _)) = _
        rw [pyStrip_idem]
      · simp only [Option.some.injEq, Prod.mk.injEq] at h
        rw [← h.1]
        show String.mk (pyStrip (pyStrip _)) = _
        rw [pyStrip_idem]
    · exact Option.noConfusion h
  · simp only [Option.some.injEq, Prod.mk.injEq] at h
    rw [← h.1]
    show String.mk (pyStrip (pyStrip _)) = _
    rw [pyStrip_idem]

/-- Witness for C9 at the concrete document "hello" (no frontmatter). -/
theorem c9_import_body_stripped_witness :
    importMarkdown tinyLoad "hello" = some ("hello", none) ∧
    String.mk (pyStrip ("hello" : String).data) = "hello" :=
  ⟨by decide,
    c9_import_body_stripped String tinyLoad "hello" "hello" none (by decide)⟩

end BlogEditor

namespace BlogEditor

/-! ### Word count (`blog_editor.py`, `MarkdownEditor.update_statistics`) -/

/-- The CJK test in `update_statistics`: `'一' <= c <= '鿿'`. -/
def isCJK (c : Char) : Bool := 0x4e00 ≤ c.toNat && c.toNat ≤ 0x9fff

/-- Python `str.isalpha`, restricted to the character repertoire the
claims exercise: ASCII letters, and CJK unified ideographs — which are
alphabetic in Python (Unicode category Lo). -/
def pyIsAlpha (c : Char) : Bool := c.isAlpha || isCJK c

/-- Python `str.split()` with no argument: split on whitespace runs,
discarding empty tokens.  `acc` holds the current token reversed. -/
def pySplitWsAux : List Char → List Char → List (List Char)
  | [], acc => if acc.isEmpty then [] else [acc.reverse]
  | c :: t, acc =>
    if pyIsSpace c then
      if acc.isEmpty then pySplitWsAux t [] else acc.reverse :: pySplitWsAux t []
    else pySplitWsAux t (c :: acc)

def pySplitWs (l : List Char) : List (List Char) := pySplitWsAux l []

/-- `chinese_count = len([c for c in text if '一' <= c <= '鿿'])`. -/
def chineseCount (text : List Char) : Nat := (text.filter isCJK).length

/-- `english_words = len([w for w in text.split() if any(c.isalpha() for c in w)])`. -/
def englishWords (text : List Char) : Nat :=
  ((pySplitWs text).filter (fun w => w.any pyIsAlpha)).length

/-- `self.word_count = chinese_count + english_words`. -/
def wordCount (text : List Char) : Nat := chineseCount text + englishWords text

/-- C7 counterexample: on `"你好 hello world"` the token `"你好"` also
contains alphabetic characters (CJK ideographs are alphabetic for
Python's `isalpha`), so the token count is 3, not 2, and the combined
word count is 5, not 4 as the claim states. -/
theorem c7_counterexample :
    chineseCount ("你好 hello world" : String).data = 2 ∧
    englishWords ("你好 hello world" : String).data = 3 ∧
    wordCount ("你好 hello world" : String).data = 5 ∧
    wordCount ("你好 hello world" : String).data ≠ 2 + 2 := by
  decide

/-- C7 (amended): the word-count statistic equals the count of CJK
characters plus the count of whitespace-delimited tokens containing at
least one alphabetic character; for `"你好 hello world"` this yields CJK
count 2, token count 3 (the CJK token counts as well, since CJK
characters are alphabetic), and combined count 5. -/
theorem c7_word_count :
    (∀ t : List Char, wordCount t =
      (t.filter isCJK).length +
        ((pySplitWs t).filter (fun w => w.any pyIsAlpha)).length) ∧
    chineseCount ("你好 hello world" : String).data = 2 ∧
    englishWords ("你好 hello world" : String).data = 3 ∧
    wordCount ("你好 hello world" : String).data = 5 :=
  ⟨fun _ => rfl, by decide, by decide, by decide⟩

/-! ### AutoSaver (`blog_editor.py`, class `AutoSaver`) -/

/-- The metadata dictionary assembled by `AutoSaver.auto_save` from the
editor's form fields. -/
structure AutoMeta where
  title : String
  description : String
  folder : String
  date : String
  tags : List String
  language : String
  color : String
  imagePath : String
deriving DecidableEq

/-- The autosaver's state: the `last_content` / `last_metadata` snapshot
and the two recovery files, each modelled as the written value paired with
its modification time (the `metadata.json` text is identified with the
`AutoMeta` value — `json.dump` with a fixed layout is injective on it).
`last_metadata` starts as the empty dict `{}`, which differs from every
assembled dictionary; `Option` models this (`none` at start). -/
structure AutoSaverState where
  lastContent : String
  lastMetadata : Option AutoMeta
  contentFile : Option (String × Nat)
  metadataFile : Option (AutoMeta × Nat)
deriving DecidableEq

/-- `AutoSaver.auto_save`: read the current content and metadata; when
either differs by value from the last written snapshot, overwrite both
recovery files (stamped with the current time `now`) and update the
snapshot; otherwise do nothing. -/
def autoSave (st : AutoSaverState) (currentContent : String)
    (currentMeta : AutoMeta) (now : Nat) : AutoSaverState :=
  if currentContent ≠ st.lastContent ∨ some currentMeta ≠ st.lastMetadata then
    { lastContent := currentContent, lastMetadata := some currentMeta,
      contentFile := some (currentContent, now),
      metadataFile := some (currentMeta, now) }
  else st

/-- C8: on an autosave tick the recovery files are written iff the current
content or metadata differs by value from the last written snapshot — when
both are unchanged the state (files included, hence their modification
times) is exactly unchanged; when either differs both files are
overwritten with the current values and the snapshot is updated. -/
theorem c8_autosave_write_iff (st : AutoSaverState) (c : String) (m : AutoMeta)
    (now : Nat) :
    ((c = st.lastContent ∧ some m = st.lastMetadata) → autoSave st c m now = st) ∧
    (¬ (c = st.lastContent ∧ some m = st.lastMetadata) →
      (autoSave st c m now).contentFile = some (c, now) ∧
      (autoSave st c m now).metadataFile = some (m, now) ∧
      (autoSave st c m now).lastContent = c ∧
      (autoSave st c m now).lastMetadata = some m) := by
  constructor
  · intro h
    unfold autoSave
    rw [if_neg]
    push_neg
    exact ⟨h.1, h.2⟩
  · intro h
    unfold autoSave
    rw [if_pos]
    · exact ⟨rfl, rfl, rfl, rfl⟩
    · rcases not_and_or.mp h with h1 | h1
      · exact Or.inl h1
      · exact Or.inr h1

end BlogEditor

namespace BlogEditor

/-! ### Unique filenames (`file_manager.py`, `FileManager.ensure_unique_filename`) -/

/-- Decimal digit character. -/
def digitChar (n : Nat) : Char := Char.ofNat (48 + n)

/-- Decimal representation of a natural number, most significant digit
first; models Python's `f"{counter}"` formatting of an `int`.  The `fuel`
argument makes the recursion structural; `n + 1` always suffices. -/
def natToDecFuel : Nat → Nat → List Char
  | 0, _ => []
  | fuel + 1, n =>
    if n < 10 then [digitChar n]
    else natToDecFuel fuel (n / 10) ++ [digitChar (n % 10)]

def natToDec (n : Nat) : List Char := natToDecFuel (n + 1) n

/-- Value of a decimal digit string (left inverse used to show `natToDec`
is injective). -/
def decVal (l : List Char) : Nat := l.foldl (fun a c => a * 10 + (c.toNat - 48)) 0

theorem decVal_append_digit (xs : List Char) (c : Char) :
    decVal (xs ++ [c]) = decVal xs * 10 + (c.toNat - 48) := by
  unfold decVal
  rw [List.foldl_append]
  rfl

theorem toNat_digitChar (d : Nat) (h : d < 10) : (digitChar d).toNat - 48 = d := by
  unfold digitChar
  interval_cases d <;> decide

theorem decVal_natToDecFuel :
    ∀ fuel n, n < 10 ^ fuel → decVal (natToDecFuel fuel n) = n := by
  intro fuel
  induction fuel with
  | zero =>
    intro n hn
    interval_cases n
    rfl
  | succ f ih =>
    intro n hn
    by_cases h10 : n < 10
    · unfold natToDecFuel
      rw [if_pos h10]
      show decVal ([] ++ [digitChar n]) = n
      rw [decVal_append_digit, toNat_digitChar n h10]
      simp [decVal]
    · unfold natToDecFuel
      rw [if_neg h10, decVal_append_digit]
      have hdiv : n / 10 < 10 ^ f := by
        rw [Nat.div_lt_iff_lt_mul (by norm_num)]
        calc n < 10 ^ (f + 1) := hn
          _ = 10 ^ f * 10 := by ring
      rw [ih (n / 10) hdiv, toNat_digitChar (n % 10) (Nat.mod_lt n (by norm_num))]
      omega

theorem decVal_natToDec (n : Nat) : decVal (natToDec n) = n := by
  refine decVal_natToDecFuel (n + 1) n ?_
  calc n < 2 ^ n := Nat.lt_two_pow n
    _ ≤ 10 ^ n := Nat.pow_le_pow_left (by norm_num) n
    _ ≤ 10 ^ (n + 1) := Nat.pow_le_pow_right (by norm_num) (Nat.le_succ n)

theorem natToDec_injective : Function.Injective natToDec := by
  intro i j h
  have := congrArg decVal h
  rwa [decVal_natToDec, decVal_natToDec] at this

/-- `os.path.splitext` for a plain filename (no path separator), as
`ensure_unique_filename` uses it: split at the last dot, unless every
character before that dot is itself a dot (leading-dot names like
`.bashrc` have no extension). -/
def splitext (f : String) : String × String :=
  let l := f.data
  let tl := (l.reverse.takeWhile (fun c => c ≠ '.')).length
  if tl = l.length then (f, "")
  else
    let i := l.length - tl - 1
    if (l.take i).all (fun c => c = '.') then (f, "")
    else (String.mk (l.take i), String.mk (l.drop i))

/-- The name-plus-extension decomposition is lossless. -/
theorem splitext_append (f : String) : (splitext f).1 ++ (splitext f).2 = f := by
  unfold splitext
  set l := f.data with hl
  by_cases h1 : (l.reverse.takeWhile (fun c => c ≠ '.')).length = l.length
  · rw [if_pos h1]
    exact String.append_empty f
  · rw [if_neg h1]
    by_cases h2 : (l.take (l.length - (l.reverse.takeWhile (fun c => c ≠ '.')).length - 1)).all
        (fun c => c = '.')
    · rw [if_pos h2]
      exact String.append_empty f
    · rw [if_neg h2]
      show String.mk (l.take _ ++ l.drop _) = f
      rw [List.take_append_drop, hl]

/-- `f"{name}_{counter}{ext}"`, the candidate filename tried by the loop. -/
def candidate (name ext : String) (k : Nat) : String :=
  name ++ "_" ++ String.mk (natToDec k) ++ ext

theorem candidate_injective (name ext : String) :
    Function.Injective (candidate name ext) := by
  intro i j h
  have hd := congrArg String.data h
  have hd2 : ((name ++ "_").data ++ natToDec i) ++ ext.data =
      ((name ++ "_").data ++ natToDec j) ++ ext.data := by
    rw [show (candidate name ext i).data = ((name ++ "_").data ++ natToDec i) ++ ext.data
      from by unfold candidate; rw [String.data_append, String.data_append]] at hd
    rw [show (candidate name ext j).data = ((name ++ "_").data ++ natToDec j) ++ ext.data
      from by unfold candidate; rw [String.data_append, String.data_append]] at hd
    exact hd
  have := List.append_cancel_left (List.append_cancel_right hd2)
  exact natToDec_injective this

/-- The `while os.path.exists(...)` loop of `ensure_unique_filename`, with
`fuel` making the recursion structural; `existing.length + 1` fuel always
suffices (`exists_free_candidate`). -/
def findFreeName (existing : List String) (name ext : String) : Nat → Nat → String
  | 0, c => candidate name ext c
  | fuel + 1, c =>
    if candidate name ext c ∈ existing then findFreeName existing name ext fuel (c + 1)
    else candidate name ext c

/-- `FileManager.ensure_unique_filename`, with the folder's existing
filenames supplied as the list `existing` (modelling
`os.path.exists(os.path.join(folder_path, f))` as membership in the
folder listing). -/
def ensureUniqueFilename (existing : List String) (filename : String) : String :=
  if filename ∈ existing then
    findFreeName existing (splitext filename).1 (splitext filename).2
      (existing.length + 1) 1
  else filename

/-- Pigeonhole: among `existing.length + 1` consecutive candidates, one is
not in `existing`. -/
theorem exists_free_candidate (existing : List String) (name ext : String) (c : Nat) :
    ∃ j, c ≤ j ∧ j < c + (existing.length + 1) ∧ candidate name ext j ∉ existing := by
  by_contra hall
  push_neg at hall
  have hinj : Function.Injective (fun i => candidate name ext (c + i)) := by
    intro a b hab
    exact Nat.add_left_cancel (candidate_injective name ext hab)
  have hsub : (Finset.range (existing.length + 1)).image
      (fun i => candidate name ext (c + i)) ⊆ existing.toFinset := by
    intro x hx
    rcases Finset.mem_image.mp hx with ⟨i, hi, rfl⟩
    have hi2 := Finset.mem_range.mp hi
    exact List.mem_toFinset.mpr (hall (c + i) (Nat.le_add_right c i) (by omega))
  have hcard := Finset.card_le_card hsub
  rw [Finset.card_image_of_injective _ hinj, Finset.card_range] at hcard
  have := List.toFinset_card_le existing
  omega

/-- Correctness of the search loop when enough fuel is supplied: the
result is free, and it is the first free candidate at or after `c`. -/
theorem findFreeName_spec (existing : List String) (name ext : String) :
    ∀ fuel c, (∃ j, c ≤ j ∧ j < c + fuel ∧ candidate name ext j ∉ existing) →
      findFreeName existing name ext fuel c ∉ existing ∧
      ∃ k, c ≤ k ∧ findFreeName existing name ext fuel c = candidate name ext k ∧
        ∀ j, c ≤ j → j < k → candidate name ext j ∈ existing := by
  intro fuel
  induction fuel with
  | zero =>
    rintro c ⟨j, hj1, hj2, _⟩
    omega
  | succ f ih =>
    rintro c ⟨j, hj1, hj2, hj3⟩
    by_cases hc : candidate name ext c ∈ existing
    · have hjc : c + 1 ≤ j := by
        rcases Nat.eq_or_lt_of_le hj1 with rfl | hlt
        · exact absurd hc hj3
        · omega
      have hrec := ih (c + 1) ⟨j, hjc, by omega, hj3⟩
      unfold findFreeName
      rw [if_pos hc]
      refine ⟨hrec.1, ?_⟩
      rcases hrec.2 with ⟨k, hk1, hk2, hk3⟩
      refine ⟨k, by omega, hk2, ?_⟩
      intro i hi1 hi2
      rcases Nat.eq_or_lt_of_le hi1 with rfl | hlt
      · exact hc
      · exact hk3 i hlt hi2
    · unfold findFreeName
      rw [if_neg hc]
      exact ⟨hc, c, Nat.le_refl c, rfl, fun i hi1 hi2 => absurd (Nat.lt_of_le_of_lt hi1 hi2)
        (Nat.lt_irrefl c)⟩

/-- C10: `ensure_unique_filename` returns a name that does not exist in
the folder: the original filename when free, otherwise the first of
`name_1.ext`, `name_2.ext`, ... (counter increasing from 1) that is free;
the original extension is always preserved (the result is some string
followed by the extension). -/
theorem c10_ensure_unique_filename (existing : List String) (filename : String) :
    ensureUniqueFilename existing filename ∉ existing ∧
    (filename ∉ existing → ensureUniqueFilename existing filename = filename) ∧
    (filename ∈ existing →
      ∃ k, 1 ≤ k ∧
        ensureUniqueFilename existing filename =
          candidate (splitext filename).1 (splitext filename).2 k ∧
        ∀ j, 1 ≤ j → j < k →
          candidate (splitext filename).1 (splitext filename).2 j ∈ existing) ∧
    (∃ pre : String, ensureUniqueFilename existing filename = pre ++ (splitext filename).2) := by
  unfold ensureUniqueFilename
  by_cases hf : filename ∈ existing
  · rw [if_pos hf]
    have hex := exists_free_candidate existing (splitext filename).1 (splitext filename).2 1
    have hspec := findFreeName_spec existing (splitext filename).1 (splitext filename).2
      (existing.length + 1) 1 hex
    rcases hspec with ⟨hfree, k, hk1, hkeq, hkmin⟩
    refine ⟨hfree, fun hnf => absurd hf hnf, fun _ => ⟨k, hk1, hkeq, hkmin⟩, ?_⟩
    exact ⟨(splitext filename).1 ++ "_" ++ String.mk (natToDec k), by rw [hkeq]; rfl⟩
  · rw [if_neg hf]
    refine ⟨hf, fun _ => rfl, fun hmem => absurd hmem hf, ?_⟩
    exact ⟨(splitext filename).1, (splitext_append filename).symm⟩

end BlogEditor

namespace BlogEditor

/-! ### Image path resolution for preview (`blog_editor.py`,
`BlogEditor.update_preview`, inner function `replace_path`) -/

/-- `os.path.dirname` (POSIX `posixpath.dirname`): everything up to the
last `'/'`, with trailing slashes stripped unless the head is nothing but
slashes. -/
def dirnameL (p : List Char) : List Char :=
  let i := p.length - (p.reverse.takeWhile (fun c => c ≠ '/')).length
  let head := p.take i
  if head ≠ [] ∧ head.any (fun c => c ≠ '/') then
    (head.reverse.dropWhile (fun c => c = '/')).reverse
  else head

/-- `posixpath.join` of a base and one further component. -/
def joinL (a b : List Char) : List Char :=
  if b.head? = some '/' then b
  else if a = [] ∨ a.getLast? = some '/' then a ++ b
  else a ++ '/' :: b

/-- `p.split('/')` (all occurrences, empty parts kept). -/
def splitChar (sep : Char) : List Char → List (List Char)
  | [] => [[]]
  | a :: t =>
    match splitChar sep t with
    | [] => [[]]
    | h :: r => if a = sep then [] :: h :: r else (a :: h) :: r

/-- One step of `posixpath.normpath`'s component loop: drop `''` and `'.'`,
append ordinary components, let `'..'` pop the previous component unless
there is nothing to pop (at the root it is dropped; on a relative path it
is kept). -/
def normStep (initSl : Nat) (acc : List (List Char)) (comp : List Char) : List (List Char) :=
  if comp = [] ∨ comp = ['.'] then acc
  else if ¬ comp = ['.', '.'] ∨ (initSl = 0 ∧ acc = []) ∨ acc.getLast? = some ['.', '.'] then
    acc ++ [comp]
  else if ¬ acc = [] then acc.dropLast
  else acc

/-- `'/'.join(comps)`. -/
def joinComps : List (List Char) → List Char
  | [] => []
  | [x] => x
  | x :: y :: r => x ++ '/' :: joinComps (y :: r)

/-- `posixpath.normpath`. -/
def normpathL (p : List Char) : List Char :=
  if p = [] then ['.']
  else
    let initSl : Nat :=
      if ['/', '/'].isPrefixOf p ∧ ¬ ['/', '/', '/'].isPrefixOf p then 2
      else if p.head? = some '/' then 1 else 0
    let newComps := (splitChar '/' p).foldl (normStep initSl) []
    let path := List.replicate initSl '/' ++ joinComps newComps
    if path = [] then ['.'] else path

/-- `posixpath.abspath`, with the process working directory supplied
(`os.getcwd()` only matters for relative inputs). -/
def abspathL (cwd p : List Char) : List Char :=
  if p.head? = some '/' then normpathL p else normpathL (joinL cwd p)

/-- The inner `replace_path` of `BlogEditor.update_preview`, applied to
one markdown image reference `![alt](path)` (the enclosing `path_to_url`
applies it to every regex match in the document).  On POSIX `os.sep` is
`'/'`, so `abs_path.replace(os.sep, '/')` is the identity.  `savePath` is
`self.save_path` (the configured blog save root); `cwd` models
`os.getcwd()`. -/
def replacePath (cwd savePath alt path : List Char) : List Char :=
  if ("http://" : String).data.isPrefixOf path ∨
      ("https://" : String).data.isPrefixOf path ∨
      ("file:///" : String).data.isPrefixOf path then
    ("![" : String).data ++ alt ++ ("](" : String).data ++ path ++ [')']
  else
    let absPath :=
      if ("./" : String).data.isPrefixOf path ∨ ("../" : String).data.isPrefixOf path then
        abspathL cwd (joinL (dirnameL savePath) path)
      else abspathL cwd path
    ("![" : String).data ++ alt ++ ("](file:///" : String).data ++ absPath ++ [')']

/-- C6 counterexample: `./cover.png` with `save_path = '/articles/post1'`
resolves against `os.path.dirname(save_path) = '/articles'`, not against
`/articles/post1` itself: the produced local-file URL points at
`/articles/cover.png`, not `/articles/post1/cover.png` as the claim
states. -/
theorem c6_counterexample :
    replacePath ("/cwd" : String).data ("/articles/post1" : String).data
        ("cover" : String).data ("./cover.png" : String).data =
      ("![cover](file:////articles/cover.png)" : String).data ∧
    replacePath ("/cwd" : String).data ("/articles/post1" : String).data
        ("cover" : String).data ("./cover.png" : String).data ≠
      ("![cover](file:////articles/post1/cover.png)" : String).data := by
  decide

/-- C6 (amended): every image reference beginning with `./` or `../` is
resolved in preview against the parent directory of the configured save
path — `os.path.dirname(self.save_path)` — (not against the document's
save directory itself), then normalized to an absolute path and emitted
as a `file:///`-prefixed local URL; `./cover.png` with save path
`/articles/post1` therefore yields a URL pointing at
`/articles/cover.png`. -/
theorem c6_relative_resolution (cwd savePath alt path : List Char)
    (h : ("./" : String).data.isPrefixOf path = true ∨
      ("../" : String).data.isPrefixOf path = true) :
    replacePath cwd savePath alt path =
      ("![" : String).data ++ alt ++ ("](file:///" : String).data ++
        abspathL cwd (joinL (dirnameL savePath) path) ++ [')'] := by
  rcases h with h | h
  · rcases List.isPrefixOf_iff_prefix.mp h with ⟨t, ht⟩
    rw [← ht]
    unfold replacePath
    have hne : ¬ (("http://" : String).data.isPrefixOf (("./" : String).data ++ t) ∨
        ("https://" : String).data.isPrefixOf (("./" : String).data ++ t) ∨
        ("file:///" : String).data.isPrefixOf (("./" : String).data ++ t)) := by
      rintro (hc | hc | hc)
      all_goals
        exact absurd (List.cons_prefix_cons.mp (List.isPrefixOf_iff_prefix.mp hc)).1
          (by decide)
    rw [if_neg hne]
    rw [if_pos (Or.inl (List.isPrefixOf_iff_prefix.mpr
      (List.prefix_append ("./" : String).data t)))]
  · rcases List.isPrefixOf_iff_prefix.mp h with ⟨t, ht⟩
    rw [← ht]
    unfold replacePath
    have hne : ¬ (("http://" : String).data.isPrefixOf (("../" : String).data ++ t) ∨
        ("https://" : String).data.isPrefixOf (("../" : String).data ++ t) ∨
        ("file:///" : String).data.isPrefixOf (("../" : String).data ++ t)) := by
      rintro (hc | hc | hc)
      all_goals
        exact absurd (List.cons_prefix_cons.mp (List.isPrefixOf_iff_prefix.mp hc)).1
          (by decide)
    rw [if_neg hne]
    rw [if_pos (Or.inr (List.isPrefixOf_iff_prefix.mpr
      (List.prefix_append ("../" : String).data t)))]

/-- Witness for C6 (amended) at `./cover.png`, save path `/articles/post1`. -/
theorem c6_relative_resolution_witness :
    (("./" : String).data.isPrefixOf ("./cover.png" : String).data = true ∨
      ("../" : String).data.isPrefixOf ("./cover.png" : String).data = true) ∧
    replacePath ("/cwd" : String).data ("/articles/post1" : String).data
        ("cover" : String).data ("./cover.png" : String).data =
      ("![" : String).data ++ ("cover" : String).data ++
        ("](file:///" : String).data ++
        abspathL ("/cwd" : String).data
          (joinL (dirnameL ("/articles/post1" : String).data)
            ("./cover.png" : String).data) ++ [')'] :=
  ⟨Or.inl (by decide),
    c6_relative_resolution ("/cwd" : String).data ("/articles/post1" : String).data
      ("cover" : String).data ("./cover.png" : String).data (Or.inl (by decide))⟩

end BlogEditor
